import Mathlib

/-!
Shallow embedding of the backtesting core of the trading-claude repository:
the portfolio state transitions (buy, sell, price marking, snapshots) from
src/trading_claude/backtest.py, the day-stepping backtest engine loop from
the same file, and the performance-metrics functions from
src/trading_claude/metrics.py.

Modelling choices:
- Money and prices are rational numbers: the source uses Python Decimal
  (exact decimal arithmetic, a subring of the rationals) for all cash,
  price and P&L values.
- Timestamps are integers counting whole days: the engine only ever works
  with midnight datetimes and advances one day at a time, and the only
  datetime operation the core performs is (t2 - t1).days.
- Share counts are natural numbers.
- Python truthiness on optional Decimal values (None and zero are falsy)
  is modelled explicitly wherever the source uses `x or y` or `if x:`.
- Rational division in Lean is total with x / 0 = 0; the source would
  raise ZeroDivisionError instead.  All claims are stated away from that
  corner (positive prices / nonempty curves).
-/

/-- Truncation toward zero: the semantics of Python's int() applied to a
number. -/
def pyInt (x : ℚ) : ℤ := if 0 ≤ x then ⌊x⌋ else ⌈x⌉

/-- Python truthiness resolution `a or b` for an optional Decimal `a` and a
fallback `b`: None and zero are falsy. -/
def pyOrQ (a : Option ℚ) (b : ℚ) : ℚ :=
  match a with
  | some x => if x = 0 then b else x
  | none => b

/-- The fields of config.py's BacktestConfig that the simulation core
reads. -/
structure BacktestConfig where
  start_date : ℤ
  end_date : ℤ
  initial_capital : ℚ
  max_positions : ℕ
  max_position_size_pct : ℚ
  commission_per_trade : ℚ
  slippage_pct : ℚ
deriving DecidableEq

/-- An open holding: models.py, class Position. -/
structure Position where
  symbol : String
  shares : ℕ
  entry_price : ℚ
  entry_date : ℤ
  current_price : Option ℚ
deriving DecidableEq

/-- Position.cost_basis: total cost of the position. -/
def Position.cost_basis (p : Position) : ℚ := p.entry_price * p.shares

/-- Position.current_value: (current_price or entry_price) * shares, where
`or` is Python truthiness (a marked price of exactly 0 falls back to the
entry price). -/
def Position.current_value (p : Position) : ℚ :=
  pyOrQ p.current_price p.entry_price * p.shares

/-- Position.unrealized_pnl. -/
def Position.unrealized_pnl (p : Position) : ℚ := p.current_value - p.cost_basis

/-- Position.unrealized_pnl_pct: 0 when cost_basis is 0. -/
def Position.unrealized_pnl_pct (p : Position) : ℚ :=
  if p.cost_basis = 0 then 0 else p.unrealized_pnl / p.cost_basis * 100

/-- Position.update_price: immutable replacement of the marked price. -/
def Position.update_price (p : Position) (price : ℚ) : Position :=
  { p with current_price := some price }

/-- A closed round trip: models.py, class Trade.  All fields are supplied
explicitly by Portfolio.sell, so the pydantic fallback validators never
fire; holding_days is kept as an integer (pydantic would reject a negative
value at construction time). -/
structure Trade where
  symbol : String
  entry_date : ℤ
  exit_date : ℤ
  entry_price : ℚ
  exit_price : ℚ
  shares : ℕ
  pnl : ℚ
  pnl_pct : ℚ
  holding_days : ℤ
deriving DecidableEq

/-- models.py, class PortfolioSnapshot. -/
structure PortfolioSnapshot where
  timestamp : ℤ
  cash : ℚ
  positions_value : ℚ
  total_value : ℚ
  positions : List Position
deriving DecidableEq, Inhabited

/-- PortfolioSnapshot.num_positions. -/
def PortfolioSnapshot.num_positions (s : PortfolioSnapshot) : ℕ := s.positions.length

/-- backtest.py, class Portfolio.  The Python symbol-keyed, insertion-ordered
dict of positions is modelled as a list of positions with distinct symbols,
looked up by symbol. -/
structure Portfolio where
  initial_capital : ℚ
  config : BacktestConfig
  cash : ℚ
  positions : List Position
  trades : List Trade
  snapshots : List PortfolioSnapshot
deriving DecidableEq

/-- Portfolio.__init__. -/
def Portfolio.init (config : BacktestConfig) : Portfolio :=
  { initial_capital := config.initial_capital, config := config,
    cash := config.initial_capital, positions := [], trades := [], snapshots := [] }

/-- Dict lookup self.positions[symbol] / `symbol in self.positions`. -/
def Portfolio.findPosition (pf : Portfolio) (symbol : String) : Option Position :=
  pf.positions.find? (fun p => p.symbol == symbol)

/-- Portfolio.positions_value: total value of all positions. -/
def Portfolio.positions_value (pf : Portfolio) : ℚ :=
  (pf.positions.map Position.current_value).sum

/-- Portfolio.total_value: cash + positions. -/
def Portfolio.total_value (pf : Portfolio) : ℚ := pf.cash + pf.positions_value

/-- The buy-side execution price price + price * slippage_pct / 100 computed
at the top of Portfolio.buy. -/
def execPriceBuy (config : BacktestConfig) (price : ℚ) : ℚ :=
  price + price * config.slippage_pct / 100

/-- total_cost = execution_price * shares + commission as computed at the
top of Portfolio.buy (for the requested share count). -/
def buyTotalCost (config : BacktestConfig) (price : ℚ) (shares : ℕ) : ℚ :=
  execPriceBuy config price * shares + config.commission_per_trade

/-- max_position_value = total_value * max_position_size_pct / 100. -/
def Portfolio.maxPositionValue (pf : Portfolio) : ℚ :=
  pf.total_value * pf.config.max_position_size_pct / 100

/-- Dict assignment self.positions[symbol] = pos when the symbol is already
present: replace in place, preserving insertion order. -/
def replacePosition (ps : List Position) (pos : Position) : List Position :=
  ps.map (fun q => if q.symbol == pos.symbol then pos else q)

/-- The unconditional tail of Portfolio.buy once all rejection checks have
passed: decrement cash by total_cost and create or average-in the
position. -/
def Portfolio.execBuy (pf : Portfolio) (symbol : String) (shares : ℕ)
    (execution_price total_cost : ℚ) (timestamp : ℤ) : Portfolio :=
  let positions2 :=
    match pf.findPosition symbol with
    | some old_pos =>
      let new_shares := old_pos.shares + shares
      let new_cost_basis := old_pos.cost_basis + execution_price * shares
      let new_entry_price := new_cost_basis / new_shares
      replacePosition pf.positions
        { symbol := symbol, shares := new_shares, entry_price := new_entry_price,
          entry_date := old_pos.entry_date, current_price := some execution_price }
    | none =>
      pf.positions ++
        [{ symbol := symbol, shares := shares, entry_price := execution_price,
           entry_date := timestamp, current_price := some execution_price }]
  { pf with cash := pf.cash - total_cost, positions := positions2 }

/-- Portfolio.buy.  Returns the success flag together with the next
portfolio state (the Python method mutates self and returns bool). -/
def Portfolio.buy (pf : Portfolio) (symbol : String) (shares : ℕ) (price : ℚ)
    (timestamp : ℤ) : Bool × Portfolio :=
  let execution_price := execPriceBuy pf.config price
  let total_cost := buyTotalCost pf.config price shares
  if total_cost > pf.cash then (false, pf)
  else if execution_price * shares > pf.maxPositionValue then
    let shares2 := (pyInt (pf.maxPositionValue / execution_price)).toNat
    if shares2 = 0 then (false, pf)
    else
      (true, pf.execBuy symbol shares2 execution_price
        (execution_price * shares2 + pf.config.commission_per_trade) timestamp)
  else (true, pf.execBuy symbol shares execution_price total_cost timestamp)

/-- sell_price = price or position.current_price, then the sell is rejected
when the result is None: an explicit price of 0 is falsy and falls through
to the marked price. -/
def resolveSellPrice (price : Option ℚ) (current_price : Option ℚ) : Option ℚ :=
  match price with
  | some p => if p = 0 then current_price else some p
  | none => current_price

/-- The sell-side execution price sell_price - sell_price * slippage_pct / 100
(slippage is subtracted on sells). -/
def sellExecPrice (config : BacktestConfig) (sell_price : ℚ) : ℚ :=
  sell_price - sell_price * config.slippage_pct / 100

/-- Portfolio.sell: always closes the entire position. -/
def Portfolio.sell (pf : Portfolio) (symbol : String) (timestamp : ℤ)
    (price : Option ℚ) : Bool × Portfolio :=
  match pf.findPosition symbol with
  | none => (false, pf)
  | some position =>
    match resolveSellPrice price position.current_price with
    | none => (false, pf)
    | some sell_price =>
      let execution_price := sellExecPrice pf.config sell_price
      let proceeds := execution_price * position.shares - pf.config.commission_per_trade
      let trade : Trade :=
        { symbol := symbol, entry_date := position.entry_date, exit_date := timestamp,
          entry_price := position.entry_price, exit_price := execution_price,
          shares := position.shares, pnl := proceeds - position.cost_basis,
          pnl_pct := position.unrealized_pnl_pct,
          holding_days := timestamp - position.entry_date }
      (true, { pf with cash := pf.cash + proceeds,
                       trades := pf.trades ++ [trade],
                       positions := pf.positions.filter (fun p => p.symbol != symbol) })

/-- Portfolio.update_prices: refresh the marked price of every open position
for which the data source has a price at this date; positions with no
available price are left unchanged. -/
def Portfolio.update_prices (pf : Portfolio) (date : ℤ)
    (get_price_at_date : String → ℤ → Option ℚ) : Portfolio :=
  { pf with positions := pf.positions.map (fun p =>
      match get_price_at_date p.symbol date with
      | some price => p.update_price price
      | none => p) }

/-- Portfolio.take_snapshot: append an immutable capture of the current
state. -/
def Portfolio.take_snapshot (pf : Portfolio) (timestamp : ℤ) : Portfolio :=
  { pf with snapshots := pf.snapshots ++
      [{ timestamp := timestamp, cash := pf.cash,
         positions_value := pf.positions_value, total_value := pf.total_value,
         positions := pf.positions }] }

/-- The two external capabilities BacktestEngine.run consumes: the data
source (strategy.data_fetcher) and the strategy decision functions. -/
structure StrategyEnv where
  get_open_price : String → ℤ → Option ℚ
  get_price_at_date : String → ℤ → Option ℚ
  generate_signals : ℤ → ℚ → List Position → ℕ → List (String × ℕ)
  should_sell : Position → ℤ → Bool

/-- The mutable state of BacktestEngine: the portfolio plus the pending
buy-signal queue of (symbol, shares, signal_date) triples. -/
structure EngineState where
  portfolio : Portfolio
  pending : List (String × ℕ × ℤ)
deriving DecidableEq

/-- Step 1 of the daily loop: execute the buy signals queued on the previous
day at today's opening price; a signal whose opening price is unavailable
(or zero, which is falsy in `if open_price:`) is dropped; the queue is
cleared unconditionally afterwards. -/
def execPendingPhase (env : StrategyEnv) (d : ℤ) (st : EngineState) : EngineState :=
  let pf := st.pending.foldl (fun pf sig =>
    match env.get_open_price sig.1 d with
    | some open_price =>
      if open_price = 0 then pf else (pf.buy sig.1 sig.2.1 open_price d).2
    | none => pf) st.portfolio
  { portfolio := pf, pending := [] }

/-- Step 3 of the daily loop: iterate over a snapshot of the open symbols
and sell (at the marked price, no explicit override) each one for which the
strategy's should_sell returns true.  A sell removes only its own symbol,
so each symbol of the snapshot is still present when it is examined; the
none fallback below is unreachable. -/
def sellPhase (env : StrategyEnv) (d : ℤ) (pf : Portfolio) : Portfolio :=
  (pf.positions.map Position.symbol).foldl (fun pf symbol =>
    match pf.findPosition symbol with
    | some position =>
      if env.should_sell position d then (pf.sell symbol d none).2 else pf
    | none => pf) pf

/-- Steps 4-5 of the daily loop: generate buy signals from today's state and
queue each one whose closing price is available (and nonzero: `if
close_price:` is a truthiness test) for execution on the next day's open.
The portfolio is not touched. -/
def queuePhase (env : StrategyEnv) (d : ℤ) (pf : Portfolio)
    (pending : List (String × ℕ × ℤ)) : List (String × ℕ × ℤ) :=
  let buy_signals := env.generate_signals d pf.cash pf.positions pf.config.max_positions
  buy_signals.foldl (fun pending sig =>
    match env.get_price_at_date sig.1 d with
    | some close_price =>
      if close_price = 0 then pending else pending ++ [(sig.1, sig.2, d)]
    | none => pending) pending

/-- One iteration of the while-loop of BacktestEngine.run for day d, in the
source's order: pending buys, price marking, exits, signal generation and
queueing, snapshot. -/
def stepDay (env : StrategyEnv) (d : ℤ) (st : EngineState) : EngineState :=
  let st1 := execPendingPhase env d st
  let pf2 := st1.portfolio.update_prices d env.get_price_at_date
  let pf3 := sellPhase env d pf2
  let pending2 := queuePhase env d pf3 st1.pending
  { portfolio := pf3.take_snapshot d, pending := pending2 }

/-- The while-loop of BacktestEngine.run: steps every day from cur to endD
inclusive. -/
def runFrom (env : StrategyEnv) (endD cur : ℤ) (st : EngineState) : EngineState :=
  if cur ≤ endD then runFrom env endD (cur + 1) (stepDay env cur st) else st
termination_by (endD + 1 - cur).toNat
decreasing_by omega

/-- BacktestEngine.run up to the final metrics computation: iterate the
daily state machine over [start_date, end_date]. -/
def BacktestEngine.run (env : StrategyEnv) (config : BacktestConfig) : EngineState :=
  runFrom env config.end_date config.start_date
    { portfolio := Portfolio.init config, pending := [] }

/-- The timestamps of the snapshot sequence produced by a full run. -/
def runTimestamps (env : StrategyEnv) (config : BacktestConfig) : List ℤ :=
  ((BacktestEngine.run env config).portfolio.snapshots).map PortfolioSnapshot.timestamp

/-- metrics.py, class PerformanceMetrics.  The money- and trade-derived
fields are exact (rational); cagr and the Sharpe/Sortino ratios, which the
source computes in binary floating point with power and square roots, are
modelled as exact reals. -/
structure PerformanceMetrics where
  total_return : ℚ
  total_return_pct : ℚ
  cagr : ℝ
  sharpe_ratio : Option ℝ
  sortino_ratio : Option ℝ
  max_drawdown : ℚ
  max_drawdown_duration : ℕ
  total_trades : ℕ
  winning_trades : ℕ
  losing_trades : ℕ
  win_rate : ℚ
  avg_gain : ℚ
  avg_loss : ℚ
  avg_holding_days : ℚ
  largest_gain : ℚ
  largest_loss : ℚ
  profit_factor : Option ℚ
  avg_num_positions : ℚ
  max_num_positions : ℕ
  days_traded : ℤ
  initial_capital : ℚ
  final_capital : ℚ

/-- Python max(iterable, default=d) over rationals. -/
def listMaxQ (l : List ℚ) (d : ℚ) : ℚ :=
  match l with
  | [] => d
  | x :: xs => xs.foldl max x

/-- Python min(iterable, default=d) over rationals. -/
def listMinQ (l : List ℚ) (d : ℚ) : ℚ :=
  match l with
  | [] => d
  | x :: xs => xs.foldl min x

/-- Python max(nonempty list of naturals); every element is ≥ 0, so folding
from 0 agrees with the builtin on the nonempty lists the source applies it
to. -/
def listMaxNat (l : List ℕ) : ℕ := l.foldl max 0

/-- np.mean (population mean). -/
def meanQ (l : List ℚ) : ℚ := l.sum / l.length

/-- Population variance, the square of np.std (ddof = 0). -/
def varQ (l : List ℚ) : ℚ := meanQ (l.map (fun x => (x - meanQ l) ^ 2))

/-- The loop of _calculate_max_drawdown: arguments are the remaining curve,
the running peak, max_dd, max_dd_duration and current_dd_duration. -/
def ddLoop : List ℚ → ℚ → ℚ → ℕ → ℕ → ℚ × ℕ
  | [], _, max_dd, max_dd_duration, _ => (max_dd, max_dd_duration)
  | value :: rest, peak, max_dd, max_dd_duration, current_dd_duration =>
    if value > peak then ddLoop rest value max_dd max_dd_duration 0
    else
      let dd := (peak - value) / peak * 100
      let current2 := current_dd_duration + 1
      ddLoop rest peak (max max_dd dd) (max max_dd_duration current2) current2

/-- metrics.py, _calculate_max_drawdown: the initial peak is the first
element of the curve (the source indexes equity_curve[0] and is only ever
called on a nonempty curve; headI supplies 0 on the empty list). -/
def _calculate_max_drawdown (equity_curve : List ℚ) : ℚ × ℕ :=
  ddLoop equity_curve equity_curve.headI 0 0 0

/-- metrics.py, _calculate_sharpe_ratio.  np.std is the square root of the
population variance, so the source's `np.std(excess_returns) == 0` test is
exactly a zero-variance test. -/
noncomputable def _calculate_sharpe_ratio (daily_returns : List ℚ)
    (risk_free_rate : ℚ) : Option ℝ :=
  if daily_returns.isEmpty then none
  else
    let daily_rf_rate := risk_free_rate / 252
    let excess_returns := daily_returns.map (fun r => r - daily_rf_rate)
    if varQ excess_returns = 0 then none
    else some ((meanQ excess_returns : ℝ) / Real.sqrt (varQ excess_returns : ℝ) *
      Real.sqrt 252)

/-- metrics.py, _calculate_sortino_ratio (downside deviation in the
denominator). -/
noncomputable def _calculate_sortino_ratio (daily_returns : List ℚ)
    (risk_free_rate : ℚ) : Option ℝ :=
  if daily_returns.isEmpty then none
  else
    let daily_rf_rate := risk_free_rate / 252
    let excess_returns := daily_returns.map (fun r => r - daily_rf_rate)
    let downside_returns := excess_returns.filter (fun r => decide (r < 0))
    if downside_returns.isEmpty then none
    else if varQ downside_returns = 0 then none
    else some ((meanQ excess_returns : ℝ) / Real.sqrt (varQ downside_returns : ℝ) *
      Real.sqrt 252)

/-- metrics.py, calculate_metrics.  The guard `if not snapshots or not
trades` returns the zeroed record with the Optional fields left at their
pydantic default None. -/
noncomputable def calculate_metrics (snapshots : List PortfolioSnapshot)
    (trades : List Trade) (initial_capital : ℚ) (risk_free_rate : ℚ) :
    PerformanceMetrics :=
  if snapshots.isEmpty || trades.isEmpty then
    { total_return := 0, total_return_pct := 0, cagr := 0,
      sharpe_ratio := none, sortino_ratio := none,
      max_drawdown := 0, max_drawdown_duration := 0,
      total_trades := 0, winning_trades := 0, losing_trades := 0,
      win_rate := 0, avg_gain := 0, avg_loss := 0, avg_holding_days := 0,
      largest_gain := 0, largest_loss := 0, profit_factor := none,
      avg_num_positions := 0, max_num_positions := 0, days_traded := 0,
      initial_capital := initial_capital, final_capital := initial_capital }
  else
    let final_capital := (snapshots.getLastD default).total_value
    let total_return := final_capital - initial_capital
    let total_return_pct := total_return / initial_capital * 100
    let days_traded := (snapshots.getLastD default).timestamp - snapshots.headI.timestamp
    let years : ℚ := (days_traded : ℚ) / (1461 / 4)
    let cagr : ℝ :=
      if years > 0 then
        (((final_capital / initial_capital : ℚ) : ℝ) ^ ((1 : ℝ) / (years : ℚ)) - 1) * 100
      else 0
    let equity_curve := snapshots.map PortfolioSnapshot.total_value
    let dd := _calculate_max_drawdown equity_curve
    let daily_returns :=
      List.zipWith (fun prev next => (next - prev) / prev) equity_curve equity_curve.tail
    let winning_trades := trades.filter (fun t => decide (t.pnl > 0))
    let losing_trades := trades.filter (fun t => decide (t.pnl < 0))
    let total_trades := trades.length
    let num_wins := winning_trades.length
    let num_losses := losing_trades.length
    let win_rate : ℚ := if total_trades > 0 then (num_wins : ℚ) / total_trades * 100 else 0
    let avg_gain : ℚ :=
      if num_wins > 0 then (winning_trades.map Trade.pnl_pct).sum / num_wins else 0
    let avg_loss : ℚ :=
      if num_losses > 0 then (losing_trades.map Trade.pnl_pct).sum / num_losses else 0
    let avg_holding_days : ℚ :=
      if total_trades > 0 then ((trades.map Trade.holding_days).sum : ℚ) / total_trades else 0
    let gross_profit := (winning_trades.map Trade.pnl).sum
    let gross_loss := |(losing_trades.map Trade.pnl).sum|
    let num_positions := snapshots.map PortfolioSnapshot.num_positions
    { total_return := total_return, total_return_pct := total_return_pct, cagr := cagr,
      sharpe_ratio := _calculate_sharpe_ratio daily_returns risk_free_rate,
      sortino_ratio := _calculate_sortino_ratio daily_returns risk_free_rate,
      max_drawdown := dd.1, max_drawdown_duration := dd.2,
      total_trades := total_trades, winning_trades := num_wins, losing_trades := num_losses,
      win_rate := win_rate, avg_gain := avg_gain, avg_loss := avg_loss,
      avg_holding_days := avg_holding_days,
      largest_gain := listMaxQ (trades.map Trade.pnl_pct) 0,
      largest_loss := listMinQ (trades.map Trade.pnl_pct) 0,
      profit_factor := if gross_loss > 0 then some (gross_profit / gross_loss) else none,
      avg_num_positions := ((num_positions.map (fun n => (n : ℚ))).sum) / num_positions.length,
      max_num_positions := listMaxNat num_positions,
      days_traded := days_traded,
      initial_capital := initial_capital, final_capital := final_capital }

/-! Claim theorems and the lemmas they need. -/

lemma ddLoop_of_chain (rest : List ℚ) (peak m : ℚ) (d c : ℕ)
    (h : List.Chain' (· < ·) (peak :: rest)) :
    ddLoop rest peak m d c = (m, d) := by
  induction rest generalizing peak c with
  | nil => rfl
  | cons v vs ih =>
    rw [List.chain'_cons] at h
    unfold ddLoop
    rw [if_pos h.1]
    exact ih v 0 h.2

/-- C1, counterexample: the equity curve [1, 2] is strictly increasing,
yet the drawdown computation does not return max_drawdown_duration = 0.
The first element of the curve is not strictly above the initial peak
(which is itself), so the else-branch runs once and the duration counter
reaches 1 before the first new peak resets it. -/
theorem C1_drawdown_counterexample :
    List.Chain' (· < ·) [(1 : ℚ), 2] ∧
    _calculate_max_drawdown [(1 : ℚ), 2] ≠ (0, 0) := by
  constructor
  · norm_num [List.chain'_cons]
  · have h : _calculate_max_drawdown [(1 : ℚ), 2] = (0, 1) := by
      norm_num [_calculate_max_drawdown, ddLoop]
    rw [h]
    simp

/-- C1, amended: on a nonempty strictly increasing equity curve of positive
values the drawdown computation returns max_drawdown = 0 and
max_drawdown_duration = 1: the duration counter counts consecutive points
that are not strictly above the running peak (so the first point, which
ties its own peak, is counted), and it is reset only when a strictly larger
value sets a new peak; the maxima of drawdown and of duration are still
tracked independently.  (Positivity keeps the model inside the domain where
the source's float division is defined.) -/
theorem C1_drawdown_strictly_increasing (l : List ℚ) (hne : l ≠ [])
    (hpos : ∀ x ∈ l, 0 < x) (hinc : List.Chain' (· < ·) l) :
    _calculate_max_drawdown l = (0, 1) := by
  match l, hne with
  | x :: rest, _ =>
    have h0 : _calculate_max_drawdown (x :: rest) = ddLoop (x :: rest) x 0 0 0 := by
      simp [_calculate_max_drawdown]
    rw [h0]
    unfold ddLoop
    rw [if_neg (lt_irrefl x)]
    simp only [sub_self, zero_div, zero_mul, max_self, Nat.zero_add, zero_add]
    have h1 : max 0 1 = 1 := rfl
    rw [h1]
    exact ddLoop_of_chain rest x 0 1 1 hinc

/-- C1, witness for the amended theorem at the concrete curve [1, 2]. -/
theorem C1_drawdown_witness :
    ([(1 : ℚ), 2] ≠ [] ∧ (∀ x ∈ [(1 : ℚ), 2], 0 < x) ∧
      List.Chain' (· < ·) [(1 : ℚ), 2]) ∧
    _calculate_max_drawdown [(1 : ℚ), 2] = (0, 1) :=
  ⟨⟨by simp, by norm_num, by norm_num [List.chain'_cons]⟩,
    C1_drawdown_strictly_increasing [(1 : ℚ), 2] (by simp) (by norm_num)
      (by norm_num [List.chain'_cons])⟩

/-- C2: a buy whose total_cost = execution_price * shares + commission
exceeds available cash, or whose position-size-limit reduction yields 0
shares, returns false and leaves the portfolio (cash, positions, trades)
exactly as it was. -/
theorem C2_buy_rejected (pf : Portfolio) (symbol : String) (shares : ℕ)
    (price : ℚ) (timestamp : ℤ)
    (h : buyTotalCost pf.config price shares > pf.cash ∨
      (execPriceBuy pf.config price * shares > pf.maxPositionValue ∧
        (pyInt (pf.maxPositionValue / execPriceBuy pf.config price)).toNat = 0)) :
    pf.buy symbol shares price timestamp = (false, pf) := by
  unfold Portfolio.buy
  rcases h with h | ⟨h1, h2⟩
  · rw [if_pos h]
  · by_cases hc : buyTotalCost pf.config price shares > pf.cash
    · rw [if_pos hc]
    · rw [if_neg hc, if_pos h1, h2, if_pos rfl]

/-- A concrete configuration used by the witnesses below: $1000 capital,
20% position-size cap, zero commission and slippage. -/
def cfgW : BacktestConfig :=
  { start_date := 0, end_date := 2, initial_capital := 1000, max_positions := 10,
    max_position_size_pct := 20, commission_per_trade := 0, slippage_pct := 0 }

/-- A fresh concrete portfolio for the witnesses. -/
def pfW : Portfolio := Portfolio.init cfgW

/-- C2, witness: buying 200 shares at 10 with only $1000 cash is rejected
with no state change. -/
theorem C2_buy_rejected_witness :
    buyTotalCost pfW.config 10 200 > pfW.cash ∧
    pfW.buy "B" 200 10 0 = (false, pfW) :=
  ⟨by norm_num [buyTotalCost, execPriceBuy, pfW, cfgW, Portfolio.init],
    C2_buy_rejected pfW "B" 200 10 0
      (Or.inl (by norm_num [buyTotalCost, execPriceBuy, pfW, cfgW, Portfolio.init]))⟩

lemma pyInt_toNat_le (x : ℚ) (n : ℕ) (h : x < n) : (pyInt x).toNat ≤ n := by
  unfold pyInt
  split
  · have hf : ⌊x⌋ < (n : ℤ) := by
      rw [Int.floor_lt]
      push_cast
      exact h
    omega
  · next hx =>
    have h0 : ⌈x⌉ ≤ 0 := Int.ceil_le.mpr (by exact_mod_cast le_of_lt (not_le.mp hx))
    omega

/-- C3: every successful buy executes some share count s ≤ the requested
count at execution_price = price * (1 + slippage_pct/100), decrements cash
by exactly execution_price * s + commission, and never drives cash
negative. -/
theorem C3_buy_cash (pf : Portfolio) (symbol : String) (shares : ℕ)
    (price : ℚ) (timestamp : ℤ)
    (hprice : 0 < price) (hslip : 0 ≤ pf.config.slippage_pct)
    (hsucc : (pf.buy symbol shares price timestamp).1 = true) :
    execPriceBuy pf.config price = price * (1 + pf.config.slippage_pct / 100) ∧
    ∃ s : ℕ, s ≤ shares ∧
      (pf.buy symbol shares price timestamp).2.cash =
        pf.cash - execPriceBuy pf.config price * s - pf.config.commission_per_trade ∧
      0 ≤ (pf.buy symbol shares price timestamp).2.cash := by
  have hep : 0 < execPriceBuy pf.config price := by
    unfold execPriceBuy
    have h0 : 0 ≤ price * pf.config.slippage_pct / 100 := by positivity
    linarith
  refine ⟨by unfold execPriceBuy; ring, ?_⟩
  by_cases h1 : buyTotalCost pf.config price shares > pf.cash
  · simp [Portfolio.buy, h1] at hsucc
  · by_cases h2 : execPriceBuy pf.config price * shares > pf.maxPositionValue
    · by_cases h3 : (pyInt (pf.maxPositionValue / execPriceBuy pf.config price)).toNat = 0
      · have : pf.buy symbol shares price timestamp = (false, pf) := by
          unfold Portfolio.buy
          rw [if_neg h1, if_pos h2, h3, if_pos rfl]
        rw [this] at hsucc
        simp at hsucc
      · set s2 := (pyInt (pf.maxPositionValue / execPriceBuy pf.config price)).toNat with hs2
        have hbuy : pf.buy symbol shares price timestamp =
            (true, pf.execBuy symbol s2 (execPriceBuy pf.config price)
              (execPriceBuy pf.config price * s2 + pf.config.commission_per_trade) timestamp) := by
          unfold Portfolio.buy
          rw [if_neg h1, if_pos h2, ← hs2, if_neg h3]
        have hs2le : s2 ≤ shares := by
          apply pyInt_toNat_le
          rw [div_lt_iff₀ hep]
          rw [gt_iff_lt, mul_comm] at h2
          exact h2
        refine ⟨s2, hs2le, ?_, ?_⟩
        · rw [hbuy]
          simp [Portfolio.execBuy]
          ring
        · rw [hbuy]
          simp only [Portfolio.execBuy]
          have hmul : execPriceBuy pf.config price * (s2 : ℚ) ≤
              execPriceBuy pf.config price * (shares : ℚ) :=
            mul_le_mul_of_nonneg_left (by exact_mod_cast hs2le) (le_of_lt hep)
          have hbt : buyTotalCost pf.config price shares =
              execPriceBuy pf.config price * shares + pf.config.commission_per_trade := rfl
          push_neg at h1
          linarith [h1]
    · have hbuy : pf.buy symbol shares price timestamp =
          (true, pf.execBuy symbol shares (execPriceBuy pf.config price)
            (buyTotalCost pf.config price shares) timestamp) := by
        unfold Portfolio.buy
        rw [if_neg h1, if_neg h2]
      refine ⟨shares, le_refl _, ?_, ?_⟩
      · rw [hbuy]
        simp [Portfolio.execBuy, buyTotalCost]
        ring
      · rw [hbuy]
        simp only [Portfolio.execBuy]
        push_neg at h1
        linarith [h1]

/-- C3, witness: a concrete successful buy of 3 shares at 10. -/
theorem C3_buy_cash_witness :
    (0 < (10 : ℚ) ∧ 0 ≤ pfW.config.slippage_pct ∧ (pfW.buy "A" 3 10 0).1 = true) ∧
    (execPriceBuy pfW.config 10 = 10 * (1 + pfW.config.slippage_pct / 100) ∧
     ∃ s : ℕ, s ≤ 3 ∧
       (pfW.buy "A" 3 10 0).2.cash =
         pfW.cash - execPriceBuy pfW.config 10 * s - pfW.config.commission_per_trade ∧
       0 ≤ (pfW.buy "A" 3 10 0).2.cash) := by
  have hsucc : (pfW.buy "A" 3 10 0).1 = true := by
    norm_num [Portfolio.buy, execPriceBuy, buyTotalCost, Portfolio.maxPositionValue,
      Portfolio.total_value, Portfolio.positions_value, pfW, cfgW, Portfolio.init]
  exact ⟨⟨by norm_num, by norm_num [pfW, cfgW, Portfolio.init], hsucc⟩,
    C3_buy_cash pfW "A" 3 10 0 (by norm_num) (by norm_num [pfW, cfgW, Portfolio.init]) hsucc⟩

/-- C5: calculate_metrics on an empty snapshot list or an empty trade list
returns the zeroed record: every trade-derived and return field is 0, the
profit factor and both ratio fields are absent, and final_capital equals
initial_capital, regardless of the other list's contents and of the
risk-free rate. -/
theorem C5_metrics_empty (snapshots : List PortfolioSnapshot) (trades : List Trade)
    (initial_capital risk_free_rate : ℚ)
    (h : snapshots = [] ∨ trades = []) :
    calculate_metrics snapshots trades initial_capital risk_free_rate =
      { total_return := 0, total_return_pct := 0, cagr := 0,
        sharpe_ratio := none, sortino_ratio := none, max_drawdown := 0,
        max_drawdown_duration := 0, total_trades := 0, winning_trades := 0,
        losing_trades := 0, win_rate := 0, avg_gain := 0, avg_loss := 0,
        avg_holding_days := 0, largest_gain := 0, largest_loss := 0,
        profit_factor := none, avg_num_positions := 0, max_num_positions := 0,
        days_traded := 0, initial_capital := initial_capital,
        final_capital := initial_capital } := by
  have hb : (snapshots.isEmpty || trades.isEmpty) = true := by
    rcases h with h | h <;> simp [h]
  simp only [calculate_metrics, hb, if_true]

/-- C5, witness at the concrete input ([], [], 100, 0.04). -/
theorem C5_metrics_empty_witness :
    calculate_metrics [] [] 100 (1 / 25) =
      { total_return := 0, total_return_pct := 0, cagr := 0,
        sharpe_ratio := none, sortino_ratio := none, max_drawdown := 0,
        max_drawdown_duration := 0, total_trades := 0, winning_trades := 0,
        losing_trades := 0, win_rate := 0, avg_gain := 0, avg_loss := 0,
        avg_holding_days := 0, largest_gain := 0, largest_loss := 0,
        profit_factor := none, avg_num_positions := 0, max_num_positions := 0,
        days_traded := 0, initial_capital := 100, final_capital := 100 } :=
  C5_metrics_empty [] [] 100 (1 / 25) (Or.inl rfl)

lemma resolveSellPrice_eq_none (price cur : Option ℚ) :
    resolveSellPrice price cur = none ↔ ((price = none ∨ price = some 0) ∧ cur = none) := by
  cases price with
  | none => simp [resolveSellPrice]
  | some p =>
    by_cases hp : p = 0
    · subst hp
      simp [resolveSellPrice]
    · simp [resolveSellPrice, hp]

/-- C10: with a held position whose marked price is set, selling with an
explicit price of 0 succeeds and executes at the marked price minus
slippage (the zero price is falsy in `price or position.current_price`);
and, for any price argument, the sell fails exactly when the explicit
price is absent-or-zero and the marked price is also unset. -/
theorem C10_sell_zero_price (pf : Portfolio) (symbol : String) (timestamp : ℤ)
    (position : Position) (hfind : pf.findPosition symbol = some position) :
    (∀ cp, position.current_price = some cp →
      (pf.sell symbol timestamp (some 0)).1 = true ∧
      (pf.sell symbol timestamp (some 0)).2.cash =
        pf.cash + (sellExecPrice pf.config cp * position.shares -
          pf.config.commission_per_trade)) ∧
    (∀ price, (pf.sell symbol timestamp price).1 = false ↔
      ((price = none ∨ price = some 0) ∧ position.current_price = none)) := by
  constructor
  · intro cp hcp
    have hres : resolveSellPrice (some 0) position.current_price = some cp := by
      simp [resolveSellPrice, hcp]
    constructor
    · simp [Portfolio.sell, hfind, hres]
    · simp [Portfolio.sell, hfind, hres]
  · intro price
    rw [← resolveSellPrice_eq_none price position.current_price]
    cases hres : resolveSellPrice price position.current_price with
    | none => simp [Portfolio.sell, hfind, hres]
    | some sp => simp [Portfolio.sell, hfind, hres]

lemma find?_filter_ne_none (ps : List Position) (symbol : String) :
    (ps.filter (fun p => p.symbol != symbol)).find? (fun p => p.symbol == symbol) = none := by
  rw [List.find?_eq_none]
  intro x hx
  have h2 := (List.mem_filter.mp hx).2
  simp only [bne_iff_ne, ne_eq] at h2
  simp [h2]

/-- C4: a successful sell (position held, marked price available,
timestamp at or after entry) removes the symbol from the open positions,
appends exactly one Trade whose pnl is proceeds - cost_basis, whose
pnl_pct is the position's unrealized_pnl_pct just before the sell and
whose holding_days = exit_date - entry_date ≥ 0, and increments cash by
proceeds = execution_price * shares - commission. -/
theorem C4_sell_success (pf : Portfolio) (symbol : String) (timestamp : ℤ)
    (position : Position) (sp : ℚ)
    (hfind : pf.findPosition symbol = some position)
    (hcp : position.current_price = some sp)
    (hts : position.entry_date ≤ timestamp) :
    (pf.sell symbol timestamp none).1 = true ∧
    (pf.sell symbol timestamp none).2.findPosition symbol = none ∧
    (pf.sell symbol timestamp none).2.trades = pf.trades ++
      [{ symbol := symbol, entry_date := position.entry_date, exit_date := timestamp,
         entry_price := position.entry_price,
         exit_price := sellExecPrice pf.config sp, shares := position.shares,
         pnl := sellExecPrice pf.config sp * position.shares -
           pf.config.commission_per_trade - position.cost_basis,
         pnl_pct := position.unrealized_pnl_pct,
         holding_days := timestamp - position.entry_date }] ∧
    0 ≤ timestamp - position.entry_date ∧
    (pf.sell symbol timestamp none).2.cash =
      pf.cash + (sellExecPrice pf.config sp * position.shares -
        pf.config.commission_per_trade) := by
  have hres : resolveSellPrice none position.current_price = some sp := by
    simp [resolveSellPrice, hcp]
  refine ⟨?_, ?_, ?_, by omega, ?_⟩
  · simp [Portfolio.sell, hfind, hres]
  · simp only [Portfolio.sell, hfind, hres]
    simp only [Portfolio.findPosition]
    exact find?_filter_ne_none pf.positions symbol
  · simp [Portfolio.sell, hfind, hres]
  · simp [Portfolio.sell, hfind, hres]

/-- The portfolio pfW after a concrete successful buy of 3 shares of "A"
at price 10, used by the witnesses below. -/
def pfW2 : Portfolio := (pfW.buy "A" 3 10 0).2

/-- The concrete open position held by pfW2. -/
def posW : Position :=
  { symbol := "A", shares := 3, entry_price := 10, entry_date := 0,
    current_price := some 10 }

lemma pfW2_find : pfW2.findPosition "A" = some posW := by
  norm_num [pfW2, pfW, cfgW, Portfolio.init, Portfolio.buy, Portfolio.execBuy,
    Portfolio.findPosition, execPriceBuy, buyTotalCost, Portfolio.maxPositionValue,
    Portfolio.total_value, Portfolio.positions_value, posW]

/-- C10, witness: selling the concrete position (marked at 10) with an
explicit price of 0. -/
theorem C10_sell_zero_price_witness :
    (pfW2.sell "A" 5 (some 0)).1 = true ∧
    (pfW2.sell "A" 5 (some 0)).2.cash =
      pfW2.cash + (sellExecPrice pfW2.config 10 * posW.shares -
        pfW2.config.commission_per_trade) :=
  (C10_sell_zero_price pfW2 "A" 5 posW pfW2_find).1 10 rfl

/-- C4, witness: selling the concrete 3-share position bought at 10. -/
theorem C4_sell_success_witness :
    (pfW2.sell "A" 5 none).1 = true ∧
    (pfW2.sell "A" 5 none).2.findPosition "A" = none ∧
    (pfW2.sell "A" 5 none).2.trades = pfW2.trades ++
      [{ symbol := "A", entry_date := posW.entry_date, exit_date := 5,
         entry_price := posW.entry_price,
         exit_price := sellExecPrice pfW2.config 10, shares := posW.shares,
         pnl := sellExecPrice pfW2.config 10 * posW.shares -
           pfW2.config.commission_per_trade - posW.cost_basis,
         pnl_pct := posW.unrealized_pnl_pct,
         holding_days := 5 - posW.entry_date }] ∧
    0 ≤ 5 - posW.entry_date ∧
    (pfW2.sell "A" 5 none).2.cash =
      pfW2.cash + (sellExecPrice pfW2.config 10 * posW.shares -
        pfW2.config.commission_per_trade) :=
  C4_sell_success pfW2 "A" 5 posW 10 pfW2_find rfl (by norm_num [posW])

lemma find?_append_of_none {α : Type} (p : α → Bool) (l1 l2 : List α)
    (h : l1.find? p = none) : (l1 ++ l2).find? p = l2.find? p := by
  induction l1 with
  | nil => rfl
  | cons a l ih =>
    rw [List.cons_append]
    cases hpa : p a with
    | true =>
      rw [List.find?_cons_of_pos _ hpa] at h
      exact absurd h (by simp)
    | false =>
      rw [List.find?_cons_of_neg _ (by simp [hpa])] at h
      rw [List.find?_cons_of_neg _ (by simp [hpa])]
      exact ih h

lemma buy_noadj_eq (pf : Portfolio) (symbol : String) (shares : ℕ) (price : ℚ)
    (timestamp : ℤ) (pf1 : Portfolio)
    (hbuy : pf.buy symbol shares price timestamp = (true, pf1))
    (hnoadj : ¬ execPriceBuy pf.config price * shares > pf.maxPositionValue) :
    pf1 = pf.execBuy symbol shares (execPriceBuy pf.config price)
      (buyTotalCost pf.config price shares) timestamp := by
  by_cases h1 : buyTotalCost pf.config price shares > pf.cash
  · unfold Portfolio.buy at hbuy
    rw [if_pos h1] at hbuy
    simp at hbuy
  · unfold Portfolio.buy at hbuy
    rw [if_neg h1, if_neg hnoadj] at hbuy
    simp at hbuy
    exact hbuy.symm

lemma execBuy_fresh (pf : Portfolio) (symbol : String) (shares : ℕ)
    (ep tc : ℚ) (timestamp : ℤ)
    (hnone : pf.findPosition symbol = none) :
    pf.execBuy symbol shares ep tc timestamp =
      { pf with
        cash := pf.cash - tc
        positions := pf.positions ++
          [{ symbol := symbol, shares := shares, entry_price := ep,
             entry_date := timestamp, current_price := some ep }] } := by
  unfold Portfolio.execBuy
  rw [hnone]

lemma findPosition_execBuy_fresh (pf : Portfolio) (symbol : String) (shares : ℕ)
    (ep tc : ℚ) (timestamp : ℤ)
    (hnone : pf.findPosition symbol = none) :
    (pf.execBuy symbol shares ep tc timestamp).findPosition symbol =
      some { symbol := symbol, shares := shares, entry_price := ep,
             entry_date := timestamp, current_price := some ep } := by
  rw [execBuy_fresh pf symbol shares ep tc timestamp hnone]
  unfold Portfolio.findPosition at hnone ⊢
  rw [find?_append_of_none _ _ _ hnone]
  rw [List.find?_cons_of_pos _ (by simp)]

/-- C9: buying a fresh symbol and then selling the whole position with an
explicit exit price, with zero slippage and zero commission, records a
trade whose pnl is exactly (p2 - p1) * shares — exact arithmetic, no
rounding. -/
theorem C9_round_trip_pnl (pf : Portfolio) (symbol : String) (shares : ℕ)
    (p1 p2 : ℚ) (t1 t2 : ℤ) (pf1 : Portfolio)
    (hslip : pf.config.slippage_pct = 0)
    (hcomm : pf.config.commission_per_trade = 0)
    (hnone : pf.findPosition symbol = none)
    (hbuy : pf.buy symbol shares p1 t1 = (true, pf1))
    (hnoadj : ¬ execPriceBuy pf.config p1 * shares > pf.maxPositionValue)
    (hp2 : p2 ≠ 0) :
    ∃ trade : Trade,
      (pf1.sell symbol t2 (some p2)).1 = true ∧
      (pf1.sell symbol t2 (some p2)).2.trades = pf.trades ++ [trade] ∧
      trade.pnl = (p2 - p1) * shares := by
  have hpf1 := buy_noadj_eq pf symbol shares p1 t1 pf1 hbuy hnoadj
  have hep : execPriceBuy pf.config p1 = p1 := by
    unfold execPriceBuy
    rw [hslip]
    ring
  rw [hep] at hpf1
  have hfind1 : pf1.findPosition symbol =
      some { symbol := symbol, shares := shares, entry_price := p1,
             entry_date := t1, current_price := some p1 } := by
    rw [hpf1]
    exact findPosition_execBuy_fresh pf symbol shares p1 _ t1 hnone
  have hres : resolveSellPrice (some p2) (some (p1 : ℚ)) = some p2 := by
    simp [resolveSellPrice, hp2]
  have hcfg : pf1.config = pf.config := by
    rw [hpf1]
    rfl
  have htr : pf1.trades = pf.trades := by
    rw [hpf1]
    rfl
  refine ⟨{ symbol := symbol, entry_date := t1, exit_date := t2, entry_price := p1,
            exit_price := sellExecPrice pf1.config p2, shares := shares,
            pnl := sellExecPrice pf1.config p2 * shares -
                   pf1.config.commission_per_trade - p1 * shares,
            pnl_pct := Position.unrealized_pnl_pct
              { symbol := symbol, shares := shares, entry_price := p1,
                entry_date := t1, current_price := some p1 },
            holding_days := t2 - t1 }, ?_, ?_, ?_⟩
  · simp [Portfolio.sell, hfind1, hres]
  · simp only [Portfolio.sell, hfind1, hres]
    rw [htr]
    simp [Position.cost_basis]
  · show sellExecPrice pf1.config p2 * (shares : ℚ) -
        pf1.config.commission_per_trade - p1 * shares = (p2 - p1) * shares
    rw [hcfg]
    unfold sellExecPrice
    rw [hslip, hcomm]
    ring

/-- C9, witness: buy 3 shares of "A" at 10, sell at 20; pnl is exactly 30. -/
theorem C9_round_trip_pnl_witness :
    pfW.buy "A" 3 10 0 = (true, pfW2) ∧
    ∃ trade : Trade,
      (pfW2.sell "A" 5 (some 20)).1 = true ∧
      (pfW2.sell "A" 5 (some 20)).2.trades = pfW.trades ++ [trade] ∧
      trade.pnl = ((20 : ℚ) - 10) * ((3 : ℕ) : ℚ) := by
  have hbuy : pfW.buy "A" 3 10 0 = (true, pfW2) := by
    norm_num [pfW2, pfW, cfgW, Portfolio.init, Portfolio.buy, Portfolio.execBuy,
      execPriceBuy, buyTotalCost, Portfolio.maxPositionValue, Portfolio.total_value,
      Portfolio.positions_value, Portfolio.findPosition]
  refine ⟨hbuy, ?_⟩
  exact C9_round_trip_pnl pfW "A" 3 10 20 0 5 pfW2 rfl rfl rfl hbuy
    (by norm_num [execPriceBuy, Portfolio.maxPositionValue, Portfolio.total_value,
      Portfolio.positions_value, pfW, cfgW, Portfolio.init]) (by norm_num)

lemma find?_replacePosition (ps : List Position) (pos old : Position)
    (h : ps.find? (fun p => p.symbol == pos.symbol) = some old) :
    (replacePosition ps pos).find? (fun p => p.symbol == pos.symbol) = some pos := by
  induction ps with
  | nil => simp at h
  | cons a l ih =>
    unfold replacePosition at ih ⊢
    rw [List.map_cons]
    cases hpa : (a.symbol == pos.symbol) with
    | true =>
      rw [if_pos rfl]
      rw [List.find?_cons_of_pos _ (by simp)]
    | false =>
      rw [if_neg (by simp)]
      rw [List.find?_cons_of_neg _ (by simp [hpa])]
      rw [List.find?_cons_of_neg _ (by simp [hpa])] at h
      exact ih h

lemma execBuy_existing (pf : Portfolio) (symbol : String) (s2 : ℕ) (ep tc : ℚ)
    (t : ℤ) (old : Position) (hfind : pf.findPosition symbol = some old) :
    pf.execBuy symbol s2 ep tc t =
      { pf with
        cash := pf.cash - tc
        positions := replacePosition pf.positions
          { symbol := symbol, shares := old.shares + s2,
            entry_price := (old.cost_basis + ep * s2) / ((old.shares + s2 : ℕ) : ℚ),
            entry_date := old.entry_date, current_price := some ep } } := by
  unfold Portfolio.execBuy
  rw [hfind]

lemma findPosition_execBuy_existing (pf : Portfolio) (symbol : String) (s2 : ℕ)
    (ep tc : ℚ) (t : ℤ) (old : Position)
    (hfind : pf.findPosition symbol = some old) :
    (pf.execBuy symbol s2 ep tc t).findPosition symbol =
      some { symbol := symbol, shares := old.shares + s2,
             entry_price := (old.cost_basis + ep * s2) / ((old.shares + s2 : ℕ) : ℚ),
             entry_date := old.entry_date, current_price := some ep } := by
  rw [execBuy_existing pf symbol s2 ep tc t old hfind]
  unfold Portfolio.findPosition at hfind ⊢
  exact find?_replacePosition pf.positions
    { symbol := symbol, shares := old.shares + s2,
      entry_price := (old.cost_basis + ep * s2) / ((old.shares + s2 : ℕ) : ℚ),
      entry_date := old.entry_date, current_price := some ep } old hfind

/-- C8: two successful buys of the same symbol (zero slippage, no
size-limit reduction, no intervening sell) leave a single position whose
share count is the sum, whose entry price is the cost-basis-weighted
average (s1*p1 + s2*p2)/(s1+s2), and whose entry date is the first buy's
timestamp. -/
theorem C8_averaging_in (pf : Portfolio) (symbol : String) (s1 s2 : ℕ)
    (p1 p2 : ℚ) (t1 t2 : ℤ) (pf1 pf2 : Portfolio)
    (hslip : pf.config.slippage_pct = 0)
    (hnone : pf.findPosition symbol = none)
    (hbuy1 : pf.buy symbol s1 p1 t1 = (true, pf1))
    (hnoadj1 : ¬ execPriceBuy pf.config p1 * s1 > pf.maxPositionValue)
    (hbuy2 : pf1.buy symbol s2 p2 t2 = (true, pf2))
    (hnoadj2 : ¬ execPriceBuy pf1.config p2 * s2 > pf1.maxPositionValue) :
    pf2.findPosition symbol =
      some { symbol := symbol, shares := s1 + s2,
             entry_price := ((s1 : ℚ) * p1 + (s2 : ℚ) * p2) / ((s1 : ℚ) + (s2 : ℚ)),
             entry_date := t1, current_price := some p2 } := by
  have hpf1 := buy_noadj_eq pf symbol s1 p1 t1 pf1 hbuy1 hnoadj1
  have hep1 : execPriceBuy pf.config p1 = p1 := by
    unfold execPriceBuy
    rw [hslip]
    ring
  rw [hep1] at hpf1
  have hfind1 : pf1.findPosition symbol =
      some { symbol := symbol, shares := s1, entry_price := p1,
             entry_date := t1, current_price := some p1 } := by
    rw [hpf1]
    exact findPosition_execBuy_fresh pf symbol s1 p1 _ t1 hnone
  have hcfg : pf1.config = pf.config := by
    rw [hpf1]
    rfl
  have hpf2 := buy_noadj_eq pf1 symbol s2 p2 t2 pf2 hbuy2 hnoadj2
  have hep2 : execPriceBuy pf1.config p2 = p2 := by
    unfold execPriceBuy
    rw [hcfg, hslip]
    ring
  rw [hep2] at hpf2
  rw [hpf2]
  rw [findPosition_execBuy_existing pf1 symbol s2 p2 _ t2 _ hfind1]
  rw [Option.some.injEq, Position.mk.injEq]
  refine ⟨rfl, rfl, ?_, rfl, rfl⟩
  simp only [Position.cost_basis]
  push_cast
  ring

/-- The portfolio pfW2 after a second buy of 5 shares of "A" at 20. -/
def pfW3 : Portfolio := (pfW2.buy "A" 5 20 1).2

/-- C8, witness: 3 shares at 10 then 5 shares at 20 average to entry price
(3*10 + 5*20)/8 with the original entry date. -/
theorem C8_averaging_in_witness :
    pfW.buy "A" 3 10 0 = (true, pfW2) ∧
    pfW2.buy "A" 5 20 1 = (true, pfW3) ∧
    pfW3.findPosition "A" =
      some { symbol := "A", shares := 3 + 5,
             entry_price := (((3 : ℕ) : ℚ) * 10 + ((5 : ℕ) : ℚ) * 20) /
               (((3 : ℕ) : ℚ) + ((5 : ℕ) : ℚ)),
             entry_date := 0, current_price := some 20 } := by
  have hbuy1 : pfW.buy "A" 3 10 0 = (true, pfW2) := by
    norm_num [pfW2, pfW, cfgW, Portfolio.init, Portfolio.buy, Portfolio.execBuy,
      execPriceBuy, buyTotalCost, Portfolio.maxPositionValue, Portfolio.total_value,
      Portfolio.positions_value, Portfolio.findPosition]
  have hbuy2 : pfW2.buy "A" 5 20 1 = (true, pfW3) := by
    norm_num [pfW3, pfW2, pfW, cfgW, Portfolio.init, Portfolio.buy, Portfolio.execBuy,
      execPriceBuy, buyTotalCost, Portfolio.maxPositionValue, Portfolio.total_value,
      Portfolio.positions_value, Portfolio.findPosition, replacePosition,
      Position.cost_basis, Position.current_value, pyOrQ]
  refine ⟨hbuy1, hbuy2, ?_⟩
  exact C8_averaging_in pfW "A" 3 5 10 20 0 1 pfW2 pfW3 rfl rfl hbuy1
    (by norm_num [execPriceBuy, Portfolio.maxPositionValue, Portfolio.total_value,
      Portfolio.positions_value, pfW, cfgW, Portfolio.init]) hbuy2
    (by norm_num [execPriceBuy, Portfolio.maxPositionValue, Portfolio.total_value,
      Portfolio.positions_value, Position.current_value, pyOrQ, pfW2, pfW, cfgW,
      Portfolio.init, Portfolio.buy, Portfolio.execBuy, buyTotalCost,
      Portfolio.findPosition])

lemma queue_foldl_mem (g : String → ℤ → Option ℚ) (d : ℤ) :
    ∀ (sigs : List (String × ℕ)) (acc : List (String × ℕ × ℤ))
      (sig : String × ℕ × ℤ),
      sig ∈ sigs.foldl (fun pending s =>
        match g s.1 d with
        | some close_price =>
          if close_price = 0 then pending else pending ++ [(s.1, s.2, d)]
        | none => pending) acc →
      sig ∈ acc ∨ sig.2.2 = d := by
  intro sigs
  induction sigs with
  | nil =>
    intro acc sig h
    exact Or.inl h
  | cons s ss ih =>
    intro acc sig h
    rw [List.foldl_cons] at h
    rcases ih _ sig h with hmem | hd
    · cases hg : g s.1 d with
      | none =>
        simp only [hg] at hmem
        exact Or.inl hmem
      | some cp =>
        simp only [hg] at hmem
        by_cases hcp : cp = 0
        · rw [if_pos hcp] at hmem
          exact Or.inl hmem
        · rw [if_neg hcp] at hmem
          rcases List.mem_append.mp hmem with h1 | h1
          · exact Or.inl h1
          · right
            simp at h1
            rw [h1]
    · exact Or.inr hd

/-- C7: the look-ahead-bias guard of the daily state machine.  (i) After a
full day step the pending queue holds only signals stamped with today's
date — no signal from an earlier day survives.  (ii) The portfolio
produced by a day step does not depend on the strategy's signal generator
at all: a signal generated on day d is queued, never executed on day d.
(iii) Step 1 clears the pending queue unconditionally.  (iv) A queued
order whose opening price is unavailable (or zero, which is falsy) is
dropped without touching the portfolio, and — by (iii) — is never
retried. -/
theorem C7_signals_deferred (env env2 : StrategyEnv) (d : ℤ) (st : EngineState) :
    (∀ sig ∈ (stepDay env d st).pending, sig.2.2 = d) ∧
    (env2.get_open_price = env.get_open_price →
      env2.get_price_at_date = env.get_price_at_date →
      env2.should_sell = env.should_sell →
      (stepDay env2 d st).portfolio = (stepDay env d st).portfolio) ∧
    (execPendingPhase env d st).pending = [] ∧
    (∀ (pf : Portfolio) (symbol : String) (shares : ℕ) (sd : ℤ)
       (rest : List (String × ℕ × ℤ)),
      (env.get_open_price symbol d = none ∨ env.get_open_price symbol d = some 0) →
      execPendingPhase env d { portfolio := pf, pending := (symbol, shares, sd) :: rest } =
        execPendingPhase env d { portfolio := pf, pending := rest }) := by
  refine ⟨?_, ?_, rfl, ?_⟩
  · intro sig hsig
    have h := queue_foldl_mem env.get_price_at_date d
      (env.generate_signals d
        (sellPhase env d ((execPendingPhase env d st).portfolio.update_prices d
          env.get_price_at_date)).cash
        (sellPhase env d ((execPendingPhase env d st).portfolio.update_prices d
          env.get_price_at_date)).positions
        (sellPhase env d ((execPendingPhase env d st).portfolio.update_prices d
          env.get_price_at_date)).config.max_positions)
      [] sig hsig
    rcases h with h | h
    · exact absurd h (List.not_mem_nil sig)
    · exact h
  · intro h1 h2 h3
    cases env with
    | mk gop gpd gen ss =>
      cases env2 with
      | mk gop2 gpd2 gen2 ss2 =>
        simp only at h1 h2 h3
        subst h1
        subst h2
        subst h3
        rfl
  · intro pf symbol shares sd rest hdrop
    unfold execPendingPhase
    rw [List.foldl_cons]
    rcases hdrop with h | h
    · simp only [h]
    · simp [h]

/-- Concrete data-source and strategy capabilities for the engine
witnesses: opening prices are 102 except for "Z" (unavailable), closing
prices are 100, the strategy proposes ("X", 2) every day and never
sells. -/
def gopW : String → ℤ → Option ℚ := fun s _ => if s = "Z" then none else some 102

/-- Concrete closing-price source for the witnesses. -/
def gpdW : String → ℤ → Option ℚ := fun _ _ => some 100

/-- Concrete never-sell decision for the witnesses. -/
def ssW : Position → ℤ → Bool := fun _ _ => false

/-- Concrete signal generator for the witnesses. -/
def genW : ℤ → ℚ → List Position → ℕ → List (String × ℕ) := fun _ _ _ _ => [("X", 2)]

/-- A second signal generator, used to show the day-d portfolio ignores
day-d signals. -/
def genW2 : ℤ → ℚ → List Position → ℕ → List (String × ℕ) := fun _ _ _ _ => [("Y", 9)]

/-- Concrete engine environment for the witnesses. -/
def envW : StrategyEnv :=
  { get_open_price := gopW, get_price_at_date := gpdW,
    generate_signals := genW, should_sell := ssW }

/-- envW with a different signal generator. -/
def envW2 : StrategyEnv :=
  { get_open_price := gopW, get_price_at_date := gpdW,
    generate_signals := genW2, should_sell := ssW }

/-- Concrete engine state for the C7 witness. -/
def stW : EngineState := { portfolio := pfW, pending := [] }

/-- C7, witness: on day 0 the generated signal ("X", 2) is queued with
today's date, the portfolio is independent of the generator, the queue is
cleared by step 1, and a pending order for "Z" (no opening price) is
dropped with no effect. -/
theorem C7_signals_deferred_witness :
    (("X", 2, (0 : ℤ)) ∈ (stepDay envW 0 stW).pending ∧
      ("X", 2, (0 : ℤ)).2.2 = (0 : ℤ)) ∧
    (stepDay envW2 0 stW).portfolio = (stepDay envW 0 stW).portfolio ∧
    (execPendingPhase envW 0 stW).pending = [] ∧
    execPendingPhase envW 0 { portfolio := pfW, pending := [("Z", 1, -1)] } =
      execPendingPhase envW 0 { portfolio := pfW, pending := [] } := by
  have h := C7_signals_deferred envW envW2 0 stW
  have hmem : ("X", 2, (0 : ℤ)) ∈ (stepDay envW 0 stW).pending := by
    norm_num [stepDay, execPendingPhase, queuePhase, sellPhase,
      Portfolio.update_prices, envW, gopW, gpdW, genW, ssW, stW, pfW, cfgW,
      Portfolio.init, Portfolio.take_snapshot]
  exact ⟨⟨hmem, h.1 _ hmem⟩, h.2.1 rfl rfl rfl, h.2.2.1,
    h.2.2.2 pfW "Z" 1 (-1) [] (Or.inl (by simp [envW, gopW]))⟩

lemma buy_snapshots (pf : Portfolio) (symbol : String) (shares : ℕ) (price : ℚ)
    (t : ℤ) : (pf.buy symbol shares price t).2.snapshots = pf.snapshots := by
  unfold Portfolio.buy
  dsimp only
  split
  · rfl
  · split
    · split
      · rfl
      · rfl
    · rfl

lemma sell_snapshots (pf : Portfolio) (symbol : String) (t : ℤ)
    (price : Option ℚ) : (pf.sell symbol t price).2.snapshots = pf.snapshots := by
  unfold Portfolio.sell
  split
  · rfl
  · split
    · rfl
    · rfl

lemma foldl_snapshots {β : Type} (f : Portfolio → β → Portfolio)
    (hf : ∀ pf b, (f pf b).snapshots = pf.snapshots) :
    ∀ (l : List β) (pf : Portfolio), (l.foldl f pf).snapshots = pf.snapshots := by
  intro l
  induction l with
  | nil =>
    intro pf
    rfl
  | cons b bs ih =>
    intro pf
    rw [List.foldl_cons, ih, hf]

lemma execPendingPhase_snapshots (env : StrategyEnv) (d : ℤ) (st : EngineState) :
    (execPendingPhase env d st).portfolio.snapshots = st.portfolio.snapshots := by
  unfold execPendingPhase
  refine foldl_snapshots _ ?_ _ _
  intro q sig
  split
  · split
    · rfl
    · exact buy_snapshots q sig.1 sig.2.1 _ d
  · rfl

lemma sellPhase_snapshots (env : StrategyEnv) (d : ℤ) (pf : Portfolio) :
    (sellPhase env d pf).snapshots = pf.snapshots := by
  unfold sellPhase
  refine foldl_snapshots _ ?_ _ _
  intro q symbol
  split
  · split
    · exact sell_snapshots q symbol d none
    · rfl
  · rfl

lemma update_prices_snapshots (pf : Portfolio) (d : ℤ)
    (g : String → ℤ → Option ℚ) : (pf.update_prices d g).snapshots = pf.snapshots := rfl

lemma take_snapshot_timestamps (pf : Portfolio) (t : ℤ) :
    (pf.take_snapshot t).snapshots.map PortfolioSnapshot.timestamp =
      pf.snapshots.map PortfolioSnapshot.timestamp ++ [t] := by
  simp [Portfolio.take_snapshot]

lemma stepDay_timestamps (env : StrategyEnv) (d : ℤ) (st : EngineState) :
    (stepDay env d st).portfolio.snapshots.map PortfolioSnapshot.timestamp =
      st.portfolio.snapshots.map PortfolioSnapshot.timestamp ++ [d] := by
  have h : (stepDay env d st).portfolio =
      (sellPhase env d ((execPendingPhase env d st).portfolio.update_prices d
        env.get_price_at_date)).take_snapshot d := rfl
  rw [h, take_snapshot_timestamps, sellPhase_snapshots, update_prices_snapshots,
    execPendingPhase_snapshots]

lemma runFrom_timestamps (env : StrategyEnv) (endD : ℤ) :
    ∀ (n : ℕ) (cur : ℤ) (st : EngineState), (endD + 1 - cur).toNat = n →
      (runFrom env endD cur st).portfolio.snapshots.map PortfolioSnapshot.timestamp =
        st.portfolio.snapshots.map PortfolioSnapshot.timestamp ++
          (List.range n).map (fun i : ℕ => cur + (i : ℤ)) := by
  intro n
  induction n with
  | zero =>
    intro cur st h
    rw [runFrom, if_neg (by omega)]
    simp
  | succ k ih =>
    intro cur st h
    rw [runFrom, if_pos (show cur ≤ endD by omega)]
    rw [ih (cur + 1) (stepDay env cur st) (by omega)]
    rw [stepDay_timestamps, List.append_assoc]
    congr 1
    rw [List.singleton_append, List.range_succ_eq_map, List.map_cons, List.map_map]
    congr 1
    · simp
    · refine List.map_congr_left ?_
      intro i hi
      simp
      omega

lemma chain_lt_range_map (a : ℤ) (n : ℕ) :
    List.Chain' (· < ·) ((List.range n).map (fun i : ℕ => a + (i : ℤ))) := by
  rw [List.chain'_map]
  refine List.Pairwise.chain' ?_
  refine List.Pairwise.imp ?_ (List.pairwise_lt_range n)
  intro i j hij
  omega

/-- C6: for start_date ≤ end_date, the run produces exactly one snapshot
per calendar day: the timestamp sequence is exactly start, start+1, ...,
end; its length is the inclusive day count; it is strictly increasing; and
it covers every day of the interval — for every environment, i.e.
independent of price-data availability. -/
theorem C6_snapshot_calendar (env : StrategyEnv) (config : BacktestConfig)
    (h : config.start_date ≤ config.end_date) :
    runTimestamps env config =
      (List.range (config.end_date + 1 - config.start_date).toNat).map
        (fun i : ℕ => config.start_date + (i : ℤ)) ∧
    (runTimestamps env config).length =
      (config.end_date + 1 - config.start_date).toNat ∧
    List.Chain' (· < ·) (runTimestamps env config) ∧
    (∀ d : ℤ, config.start_date ≤ d → d ≤ config.end_date →
      d ∈ runTimestamps env config) := by
  have hmain : runTimestamps env config =
      (List.range (config.end_date + 1 - config.start_date).toNat).map
        (fun i : ℕ => config.start_date + (i : ℤ)) := by
    unfold runTimestamps BacktestEngine.run
    rw [runFrom_timestamps env config.end_date _ config.start_date _ rfl]
    simp [Portfolio.init]
  refine ⟨hmain, ?_, ?_, ?_⟩
  · rw [hmain]
    simp
  · rw [hmain]
    exact chain_lt_range_map _ _
  · intro d h1 h2
    rw [hmain]
    simp only [List.mem_map, List.mem_range]
    exact ⟨(d - config.start_date).toNat, by omega, by omega⟩

/-- C6, witness: a concrete 3-day run (days 0..2) under the concrete
environment yields timestamps 0, 1, 2. -/
theorem C6_snapshot_calendar_witness :
    cfgW.start_date ≤ cfgW.end_date ∧
    runTimestamps envW cfgW =
      (List.range (cfgW.end_date + 1 - cfgW.start_date).toNat).map
        (fun i : ℕ => cfgW.start_date + (i : ℤ)) :=
  ⟨by decide, (C6_snapshot_calendar envW cfgW (by decide)).1⟩
